import Mathlib

/-!
Shallow embedding of the reVeal load-downscaling engine, translated from
src/reVeal/load.py (function downscale_total).  Numeric cells are modelled
as rationals; the value none models an IEEE NaN cell, which pandas
produces from a 0/0 division and propagates through arithmetic while its
reductions (sum, cumsum, median) skip NaN entries.  The weighted random
ordering drawn by pandas DataFrame.sample with a fixed random_state is
modelled as an explicit function from the integer seed to the ordering,
since the engine only consumes the ordering it returns.
-/

namespace ReVeal

/-- Pandas-style numeric cell: a rational, or none for an IEEE NaN. -/
abbrev PVal : Type := Option ℚ

/-- Elementwise addition: NaN propagates, as in pandas column arithmetic. -/
def pAdd : PVal → PVal → PVal
  | some a, some b => some (a + b)
  | _, _ => none

/-- Elementwise subtraction: NaN propagates. -/
def pSub : PVal → PVal → PVal
  | some a, some b => some (a - b)
  | _, _ => none

/-- Elementwise multiplication: NaN propagates. -/
def pMul : PVal → PVal → PVal
  | some a, some b => some (a * b)
  | _, _ => none

/-- Division as floating point performs it on the cells this development
reaches: NaN operands propagate, and a zero divisor yields a non-finite
result (0/0 is NaN; in every run studied here the numerator is zero
whenever the divisor is, so the non-finite case is always the NaN one). -/
def pDiv : PVal → PVal → PVal
  | some a, some b => if b = 0 then none else some (a / b)
  | _, _ => none

/-- Pandas Series.sum with its default skipna=True: NaN entries are
dropped, and an all-NaN or empty column sums to 0. -/
def pSum (l : List PVal) : ℚ := (l.filterMap id).sum

/-- Running-sum worker for pCumsum: a NaN cell stays NaN in the output but
does not poison the running total, matching Series.cumsum skipna=True. -/
def pCumsumAux (acc : ℚ) : List PVal → List PVal
  | [] => []
  | none :: rest => none :: pCumsumAux acc rest
  | some v :: rest => some (acc + v) :: pCumsumAux (acc + v) rest

/-- Pandas Series.cumsum with default skipna=True. -/
def pCumsum (l : List PVal) : List PVal := pCumsumAux 0 l

/-- Numpy argmax over a Boolean array: index of the first True entry, and
index 0 when every entry is False (the degenerate return flagged in the
spec design notes). -/
def argmaxBool (l : List Bool) : ℕ := (l.findIdx? id).getD 0

/-- Comparison of a cell against a scalar, Series-style: NaN compares
False. -/
def pGtQ (x : PVal) (t : ℚ) : Bool :=
  match x with
  | some v => decide (t < v)
  | none => false

/-- Python math.isclose with its default tolerances rel_tol=1e-9 and
abs_tol=0, on exact rationals. -/
def iscloseQ (a b : ℚ) : Bool :=
  decide (|a - b| ≤ max |a| |b| / 1000000000)

/-- Insertion step for sorting rational values. -/
def insertQ (x : ℚ) : List ℚ → List ℚ
  | [] => [x]
  | y :: ys => if x ≤ y then x :: y :: ys else y :: insertQ x ys

/-- Insertion sort of rational values, used to model the order statistics
behind the pandas median. -/
def sortQ : List ℚ → List ℚ
  | [] => []
  | x :: xs => insertQ x (sortQ xs)

/-- Pandas median of a column (groupby median): NaN entries are skipped;
an empty or all-NaN column has median NaN; otherwise the middle order
statistic, or the mean of the two middle ones for an even count. -/
def pMedian (l : List PVal) : PVal :=
  let v := sortQ (l.filterMap id)
  if v.length = 0 then none
  else if v.length % 2 = 1 then some (v.getD (v.length / 2) 0)
  else some ((v.getD (v.length / 2 - 1) 0 + v.getD (v.length / 2) 0) / 2)

/-- One input site row of the grid table handed to downscale_total: the
unique site key, the priority column, the baseline-load column and the
developable-capacity column. -/
structure SiteIn where
  sid : ℕ
  sPriority : ℚ
  baselineLoad : ℚ
  capacity : ℚ
deriving DecidableEq

/-- One working row of the grid frame inside downscale_total: the site
key, the running total load column, the per-year new load column, and the
running developable capacity column. -/
structure SiteRow where
  sid : ℕ
  totalLoad : PVal
  newLoad : PVal
  cap : PVal
deriving DecidableEq

/-- One row of the load-projection table: a year and that year's target
value. -/
structure LoadRow where
  year : ℤ
  value : ℚ
deriving DecidableEq

/-- Current developable capacity of the site with the given key, as the
shuffled frame carries it (a missing key reads as NaN; runs studied here
only sample keys present in the grid). -/
def lookupCap (rows : List SiteRow) (i : ℕ) : PVal :=
  match rows.find? (fun r => r.sid == i) with
  | some r => r.cap
  | none => none

/-- The sites with strictly positive priority: the eligible set whose size
is the sample size n_nonzero in the source. -/
def eligibleIds (grid : List SiteIn) : List ℕ :=
  (grid.filter (fun s => decide (0 < s.sPriority))).map SiteIn.sid

/-- One Monte Carlo trial of downscale_total (source lines 111-144): walk
the sampled ordering, take the cumulative capacity, locate via argmax the
first position strictly exceeding the target, fill every earlier site to
its capacity, give the located site the remainder, check the deployed
total against the target with isclose, and keep the deployed rows as
(site key, new capacity) pairs. -/
def runTrial (rows : List SiteRow) (order : List ℕ) (target : ℚ) :
    Except String (List (ℕ × PVal)) :=
  match order with
  | [] => Except.error "attempt to get argmax of an empty sequence"
  | _ :: _ =>
    let caps := order.map (lookupCap rows)
    let cum := pCumsum caps
    let k := argmaxBool (cum.map (fun c => pGtQ c target))
    let filledCaps := caps.take k
    let totalFilled := pSum filledCaps
    let remaining := target - totalFilled
    let allocs := filledCaps ++ [some remaining]
    let totalDeployed := pSum allocs
    if iscloseQ totalDeployed target then
      Except.ok ((order.take (k + 1)).zip allocs)
    else Except.error "Deployed total is not equal to projected total"

/-- Insertion step for sorting site keys, modelling the ascending index of
a pandas groupby result. -/
def insertNat (x : ℕ) : List ℕ → List ℕ
  | [] => [x]
  | y :: ys => if x ≤ y then x :: y :: ys else y :: insertNat x ys

/-- Insertion sort of site keys. -/
def sortNat : List ℕ → List ℕ
  | [] => []
  | x :: xs => insertNat x (sortNat xs)

/-- All new-capacity values recorded for the given site key across the
concatenated simulation rows. -/
def valuesFor (sims : List (ℕ × PVal)) (i : ℕ) : List PVal :=
  (sims.filter (fun p => p.1 == i)).map Prod.snd

/-- Per-site medians of the simulation rows (source line 147): a pandas
groupby over the site key followed by a median, indexed by the distinct
deployed site keys in ascending order. -/
def yearMedians (sims : List (ℕ × PVal)) : List (ℕ × PVal) :=
  (sortNat (sims.map Prod.fst).dedup).map (fun i => (i, pMedian (valuesFor sims i)))

/-- Aggregation and calibration for one year (source lines 146-156):
medians per deployed site, proportion of each median in the summed
medians, calibrated value proportion times target, and the isclose check
of the calibrated total against the target. -/
def aggregateYear (sims : List (ℕ × PVal)) (target : ℚ) :
    Except String (List (ℕ × PVal)) :=
  let meds := yearMedians sims
  let sumMed := pSum (meds.map Prod.snd)
  let calib := meds.map (fun p => (p.1, pMul (pDiv p.2 (some sumMed)) (some target)))
  let totalCal := pSum (calib.map Prod.snd)
  if iscloseQ totalCal target then Except.ok calib
  else Except.error "Deployed total is not equal to projected total"

/-- Calibrated new load for a site: sites outside the median index keep
the zero the new-load column was reset to. -/
def lookupCalib (calib : List (ℕ × PVal)) (i : ℕ) : PVal :=
  match calib.find? (fun p => p.1 == i) with
  | some p => p.2
  | none => some 0

/-- State update for one year (source lines 158-164): write the calibrated
values into the new-load column, add it to the running total, subtract it
from the developable capacity, then reset the new-load column to zero
(the source performs this reset before recording the snapshot). -/
def applyYear (rows : List SiteRow) (calib : List (ℕ × PVal)) : List SiteRow :=
  rows.map (fun r =>
    let nl := lookupCalib calib r.sid
    { r with
      totalLoad := pAdd r.totalLoad nl
      cap := pSub r.cap nl
      newLoad := some 0 })

/-- The n_iters Monte Carlo trials of one year, threading the global
per-trial seed counter and concatenating the deployed rows in trial
order (source lines 108-146). -/
def runTrials (sampler : ℕ → List ℕ) (rows : List SiteRow) (target : ℚ) :
    ℕ → ℕ → Except String (List (ℕ × PVal) × ℕ)
  | 0, seed => Except.ok ([], seed)
  | n + 1, seed =>
    match runTrial rows (sampler seed) target with
    | Except.error e => Except.error e
    | Except.ok dep =>
      match runTrials sampler rows target n (seed + 1) with
      | Except.error e => Except.error e
      | Except.ok (rest, seed') => Except.ok (dep ++ rest, seed')

/-- One full year of downscale_total: trials, aggregation with
calibration, and the state update. -/
def processYear (sampler : ℕ → List ℕ) (nIters : ℕ) (rows : List SiteRow)
    (target : ℚ) (seed : ℕ) : Except String (List SiteRow × ℕ) :=
  match runTrials sampler rows target nIters seed with
  | Except.error e => Except.error e
  | Except.ok (sims, seed') =>
    match aggregateYear sims target with
    | Except.error e => Except.error e
    | Except.ok calib => Except.ok (applyYear rows calib, seed')

/-- Stable insertion step for sorting load rows by year. -/
def insertLoad (x : LoadRow) : List LoadRow → List LoadRow
  | [] => [x]
  | y :: ys => if x.year ≤ y.year then x :: y :: ys else y :: insertLoad x ys

/-- The in-place ascending sort of the load table by year performed at
source line 100 before the year loop. -/
def sortLoads : List LoadRow → List LoadRow
  | [] => []
  | x :: xs => insertLoad x (sortLoads xs)

/-- Insertion step for sorting years. -/
def insertInt (x : ℤ) : List ℤ → List ℤ
  | [] => [x]
  | y :: ys => if x ≤ y then x :: y :: ys else y :: insertInt x ys

/-- Insertion sort of years. -/
def sortInt : List ℤ → List ℤ
  | [] => []
  | x :: xs => insertInt x (sortInt xs)

/-- The distinct years of the load table in ascending order: the group
keys of the pandas groupby in the year loop. -/
def distinctYears (l : List LoadRow) : List ℤ :=
  sortInt (l.map LoadRow.year).dedup

/-- Grouping of the load table by year, as the pandas groupby of the year
loop produces it: each distinct year in ascending key order paired with
the target values of all its rows in frame order. -/
def groupYears (l : List LoadRow) : List (ℤ × List ℚ) :=
  (distinctYears l).map
    (fun y => (y, (l.filter (fun r => r.year == y)).map LoadRow.value))

/-- The year loop of downscale_total (source lines 101-167): for each year
group in ascending order, fail on more than one record for the year, then
run the simulations and record the updated frame as that year's
snapshot. -/
def processYearsLoop (sampler : ℕ → List ℕ) (nIters : ℕ) :
    List (ℤ × List ℚ) → List SiteRow → ℕ →
    Except String (List (ℤ × List SiteRow))
  | [], _, _ => Except.ok []
  | (y, vals) :: gs, rows, seed =>
    if 1 < vals.length then
      Except.error "Multiple records for load projections year"
    else
      match vals with
      | [] => Except.error "Multiple records for load projections year"
      | v :: _ =>
        match processYear sampler nIters rows v seed with
        | Except.error e => Except.error e
        | Except.ok (rows', seed') =>
          match processYearsLoop sampler nIters gs rows' seed' with
          | Except.error e => Except.error e
          | Except.ok rest => Except.ok ((y, rows') :: rest)

/-- Initial working frame (source lines 86-98): total load seeded from the
baseline-load column, new load zero, developable capacity seeded from the
capacity column times the site saturation of 1. -/
def initRows (grid : List SiteIn) : List SiteRow :=
  grid.map (fun s =>
    { sid := s.sid
      totalLoad := some s.baselineLoad
      newLoad := some 0
      cap := some s.capacity })

/-- The downscale_total engine of src/reVeal/load.py: seed the working
frame, record the baseline-year snapshot, sort the load table ascending by
year, then run the year loop with the global seed counter starting at 0.
The result is the ordered list of per-year snapshots whose concatenation,
keyed by (site, year), is the output table. -/
def downscale_total (sampler : ℕ → List ℕ) (nIters : ℕ) (grid : List SiteIn)
    (baselineYear : ℤ) (loads : List LoadRow) :
    Except String (List (ℤ × List SiteRow)) :=
  let rows := initRows grid
  let groups := groupYears (sortLoads loads)
  match processYearsLoop sampler nIters groups rows 0 with
  | Except.error e => Except.error e
  | Except.ok rest => Except.ok ((baselineYear, rows) :: rest)

/-- Years whose simulation work completes before the year loop stops with
an error: the observation needed to place the duplicate-year check
relative to the simulation work. -/
def yearsBeforeError (sampler : ℕ → List ℕ) (nIters : ℕ) :
    List (ℤ × List ℚ) → List SiteRow → ℕ → List ℤ
  | [], _, _ => []
  | (y, vals) :: gs, rows, seed =>
    if 1 < vals.length then []
    else
      match vals with
      | [] => []
      | v :: _ =>
        match processYear sampler nIters rows v seed with
        | Except.error _ => []
        | Except.ok (rows', seed') => y :: yearsBeforeError sampler nIters gs rows' seed'

/-- The aggregated value the median step records for a deployed site: that
site's entry in the groupby median table. -/
def medianOf (sims : List (ℕ × PVal)) (i : ℕ) : PVal :=
  match (yearMedians sims).find? (fun p => p.1 == i) with
  | some p => p.2
  | none => some 0

/-- Allocation a trial gives a site: the value of its deployed row, or the
zero the new-capacity column was initialised with when the trial did not
deploy the site. -/
def trialAllocOf (dep : List (ℕ × PVal)) (i : ℕ) : PVal :=
  match dep.find? (fun p => p.1 == i) with
  | some p => p.2
  | none => some 0

/-- Modelled from the claim wording for C2: the median of a site's
allocation over all trials of the year, a trial in which the site received
no allocation contributing the value zero. -/
def claimMedianAllTrials (trials : List (List (ℕ × PVal))) (i : ℕ) : PVal :=
  pMedian (trials.map (fun dep => trialAllocOf dep i))

/-- A cell that is nonnegative whenever it is an actual number (NaN cells
satisfy this vacuously). -/
def nonnegCell (v : PVal) : Prop := ∀ q : ℚ, v = some q → 0 ≤ q

/-! ### Basic evaluation lemmas for the pandas-style primitives -/

theorem pSum_nil : pSum [] = 0 := rfl

theorem pSum_append (a b : List PVal) : pSum (a ++ b) = pSum a + pSum b := by
  simp [pSum, List.filterMap_append]

theorem pSum_singleton (x : ℚ) : pSum [some x] = x := by
  simp [pSum]

theorem iscloseQ_self (a : ℚ) : iscloseQ a a = true := by
  simp only [iscloseQ, sub_self, abs_zero, decide_eq_true_eq, max_self]
  positivity

theorem pCumsumAux_length (acc : ℚ) (l : List PVal) :
    (pCumsumAux acc l).length = l.length := by
  induction l generalizing acc with
  | nil => rfl
  | cons x rest ih =>
    cases x <;> simp [pCumsumAux, ih]

theorem pCumsum_length (l : List PVal) : (pCumsum l).length = l.length :=
  pCumsumAux_length 0 l

theorem argmaxBool_lt (l : List Bool) (h : l ≠ []) : argmaxBool l < l.length := by
  unfold argmaxBool
  match hf : l.findIdx? id with
  | none =>
    simpa [Option.getD] using List.length_pos.mpr h
  | some i =>
    rcases List.findIdx?_eq_some_iff_getElem.mp hf with ⟨hi, -, -⟩
    simpa [Option.getD] using hi

theorem argmaxBool_false_before (l : List Bool) (m : ℕ) (hm : m < argmaxBool l) :
    l.getD m false = false := by
  unfold argmaxBool at hm
  match hf : l.findIdx? id with
  | none => rw [hf] at hm; simp at hm
  | some i =>
    rw [hf] at hm
    simp only [Option.getD] at hm
    rcases List.findIdx?_eq_some_iff_getElem.mp hf with ⟨hi, -, hbefore⟩
    have hml : m < l.length := Nat.lt_trans hm hi
    have := hbefore m hm
    simp only [id] at this
    simp [List.getD_eq_getElem?_getD, List.getElem?_eq_getElem hml, this]

/-! ### C5: each trial's allocations sum exactly to the target -/

/-- C5: for every trial of downscale_total the per-site allocations sum to
the target exactly (hence within the isclose tolerance), and the trial's
internal consistency check passes, so a violation would abort the run but
never occurs. -/
theorem c5_trial_sum_exact (rows : List SiteRow) (order : List ℕ) (target : ℚ)
    (h : order ≠ []) :
    ∃ dep, runTrial rows order target = Except.ok dep ∧
      pSum (dep.map Prod.snd) = target := by
  match order with
  | [] => exact absurd rfl h
  | o :: os =>
    have hsum : ∀ fc : List PVal, pSum (fc ++ [some (target - pSum fc)]) = target := by
      intro fc
      rw [pSum_append, pSum_singleton]
      ring
    simp only [runTrial]
    set caps := (o :: os).map (lookupCap rows) with hcaps
    set k := argmaxBool ((pCumsum caps).map (fun c => pGtQ c target)) with hk
    have hkl : k < caps.length := by
      have hne : ((pCumsum caps).map (fun c => pGtQ c target)) ≠ [] := by
        have hcc : pCumsum caps ≠ [] := by
          rw [hcaps]
          simp only [List.map_cons]
          cases hlook : lookupCap rows o <;> simp [pCumsum, pCumsumAux]
        simpa using hcc
      have := argmaxBool_lt _ hne
      simpa [pCumsum_length] using this
    have hcond : iscloseQ (pSum (caps.take k ++ [some (target - pSum (caps.take k))])) target
        = true := by
      rw [hsum]; exact iscloseQ_self target
    rw [hcond]
    simp only [if_true]
    refine ⟨_, rfl, ?_⟩
    have hlen : (caps.take k ++ [some (target - pSum (caps.take k))]).length ≤
        ((o :: os).take (k + 1)).length := by
      have hcl : caps.length = (o :: os).length := by simp [hcaps]
      simp only [List.length_append, List.length_take, List.length_singleton]
      omega
    rw [List.map_snd_zip _ _ hlen]
    exact hsum _

/-- C5 witness: a concrete trial with one site of capacity read as NaN,
where the allocation still sums exactly to the target 1. -/
theorem c5_witness :
    ∃ dep, runTrial [] [0] 1 = Except.ok dep ∧ pSum (dep.map Prod.snd) = 1 :=
  c5_trial_sum_exact [] [0] 1 (by simp)

/-! ### C9: determinism in the base seed -/

/-- C9: the run is a pure function of its inputs and of the seed-indexed
sampler: two runs whose samplers return identical orderings for every seed
produce identical snapshot lists.  The pandas sampler with a fixed
random_state is such a function, and the engine derives every trial seed
from the base seed 0 by the global per-trial counter, so identical inputs
give bit-identical outputs. -/
theorem c9_determinism (s₁ s₂ : ℕ → List ℕ) (nIters : ℕ) (grid : List SiteIn)
    (baselineYear : ℤ) (loads : List LoadRow)
    (h : ∀ k, s₁ k = s₂ k) :
    downscale_total s₁ nIters grid baselineYear loads =
      downscale_total s₂ nIters grid baselineYear loads := by
  have hs : s₁ = s₂ := funext h
  rw [hs]

/-- C9 witness: the determinism theorem applied to a concrete one-site,
one-year run. -/
theorem c9_witness :
    downscale_total (fun _ => [0]) 1 [⟨0, 1, 0, 10⟩] 2020 [⟨2021, 5⟩] =
      downscale_total (fun _ => [0]) 1 [⟨0, 1, 0, 10⟩] 2020 [⟨2021, 5⟩] :=
  c9_determinism (fun _ => [0]) (fun _ => [0]) 1 [⟨0, 1, 0, 10⟩] 2020 [⟨2021, 5⟩]
    (fun _ => rfl)

/-! ### Ordering lemmas for the load-table sort -/

theorem insertLoad_perm (x : LoadRow) (l : List LoadRow) :
    (insertLoad x l).Perm (x :: l) := by
  induction l with
  | nil => exact List.Perm.refl _
  | cons y ys ih =>
    by_cases h : x.year ≤ y.year
    · simp [insertLoad, h]
    · simp only [insertLoad, if_neg h]
      exact (ih.cons y).trans (List.Perm.swap x y ys)

theorem sortLoads_perm (l : List LoadRow) : (sortLoads l).Perm l := by
  induction l with
  | nil => exact List.Perm.refl _
  | cons x xs ih => exact (insertLoad_perm x (sortLoads xs)).trans (ih.cons x)

theorem insertLoad_sorted (x : LoadRow) :
    ∀ {l : List LoadRow}, l.Sorted (fun a b => a.year ≤ b.year) →
      (insertLoad x l).Sorted (fun a b => a.year ≤ b.year) := by
  intro l h
  induction l with
  | nil => simp [insertLoad]
  | cons y ys ih =>
    rw [List.sorted_cons] at h
    obtain ⟨hy, hys⟩ := h
    by_cases hxy : x.year ≤ y.year
    · simp only [insertLoad, if_pos hxy]
      rw [List.sorted_cons]
      refine ⟨?_, by rw [List.sorted_cons]; exact ⟨hy, hys⟩⟩
      intro b hb
      rcases List.mem_cons.mp hb with hb | hb
      · exact hb ▸ hxy
      · exact hxy.trans (hy b hb)
    · simp only [insertLoad, if_neg hxy]
      rw [List.sorted_cons]
      refine ⟨?_, ih hys⟩
      intro b hb
      have hb2 := (insertLoad_perm x ys).mem_iff.mp hb
      rcases List.mem_cons.mp hb2 with hb3 | hb3
      · exact hb3 ▸ (le_of_lt (lt_of_not_le hxy))
      · exact hy b hb3

theorem sortLoads_sorted (l : List LoadRow) :
    (sortLoads l).Sorted (fun a b => a.year ≤ b.year) := by
  induction l with
  | nil => simp [sortLoads]
  | cons x xs ih => exact insertLoad_sorted x ih

theorem sortLoads_of_sorted :
    ∀ {l : List LoadRow}, l.Sorted (fun a b => a.year ≤ b.year) → sortLoads l = l := by
  intro l h
  induction l with
  | nil => rfl
  | cons x xs ih =>
    rw [List.sorted_cons] at h
    obtain ⟨hx, hxs⟩ := h
    rw [sortLoads, ih hxs]
    cases xs with
    | nil => rfl
    | cons y ys => simp [insertLoad, hx y (by simp)]

theorem sortLoads_idem (l : List LoadRow) : sortLoads (sortLoads l) = sortLoads l :=
  sortLoads_of_sorted (sortLoads_sorted l)

theorem insertInt_perm (x : ℤ) (l : List ℤ) : (insertInt x l).Perm (x :: l) := by
  induction l with
  | nil => exact List.Perm.refl _
  | cons y ys ih =>
    by_cases h : x ≤ y
    · simp [insertInt, h]
    · simp only [insertInt, if_neg h]
      exact (ih.cons y).trans (List.Perm.swap x y ys)

theorem sortInt_perm (l : List ℤ) : (sortInt l).Perm l := by
  induction l with
  | nil => exact List.Perm.refl _
  | cons x xs ih => exact (insertInt_perm x (sortInt xs)).trans (ih.cons x)

/-! ### The duplicate-year error inside the year loop -/

theorem processYearsLoop_error_of_dup (sampler : ℕ → List ℕ) (nIters : ℕ) :
    ∀ (groups : List (ℤ × List ℚ)) (rows : List SiteRow) (seed : ℕ),
      (∃ y vals, (y, vals) ∈ groups ∧ 1 < vals.length) →
      ∃ e, processYearsLoop sampler nIters groups rows seed = Except.error e := by
  intro groups
  induction groups with
  | nil =>
    rintro rows seed ⟨y, vals, h, -⟩
    simp at h
  | cons g gs ih =>
    rintro rows seed ⟨y, vals, hmem, hlen⟩
    obtain ⟨y0, vals0⟩ := g
    by_cases hd : 1 < vals0.length
    · exact ⟨"Multiple records for load projections year",
        by simp only [processYearsLoop, if_pos hd]⟩
    · have htail : (y, vals) ∈ gs := by
        rcases List.mem_cons.mp hmem with hh | hh
        · exact absurd (by injection hh with h1 h2; exact h2 ▸ hlen) hd
        · exact hh
      match hv : vals0 with
      | [] => exact ⟨"Multiple records for load projections year",
          by simp only [processYearsLoop, if_neg hd]⟩
      | v :: vs =>
        match hp : processYear sampler nIters rows v seed with
        | Except.error e =>
          exact ⟨e, by simp only [processYearsLoop, if_neg hd, hp]⟩
        | Except.ok (rows', seed') =>
          obtain ⟨e, he⟩ := ih rows' seed' ⟨y, vals, htail, hlen⟩
          exact ⟨e, by simp only [processYearsLoop, if_neg hd, hp, he]⟩

/-! ### C6: duplicate years are fatal, but checked inside the year loop -/

/-- C6 counterexample: with load rows for years 2030, 2040, 2040, the run
aborts with the duplicate-year error, yet year 2030 is fully simulated
first: the claim that no trial is sampled and no site state is mutated for
any year before the error is raised is false. -/
theorem c6_counterexample :
    downscale_total (fun _ => [0]) 1 [⟨0, 1, 0, 100⟩] 2020
        [⟨2030, 5⟩, ⟨2040, 1⟩, ⟨2040, 1⟩] =
      Except.error "Multiple records for load projections year" ∧
    yearsBeforeError (fun _ => [0]) 1
        (groupYears (sortLoads [⟨2030, 5⟩, ⟨2040, 1⟩, ⟨2040, 1⟩]))
        (initRows [⟨0, 1, 0, 100⟩]) 0 = [2030] :=
  ⟨by with_unfolding_all rfl, by with_unfolding_all rfl⟩

/-- C6 amended: a load table with two or more rows for the same year
always makes downscale_total abort with a fatal error and produce no
output; the duplicate check runs inside the ascending year loop, so years
earlier than the duplicated one are fully simulated (and discarded)
before the error is raised. -/
theorem c6_duplicate_year_aborts (sampler : ℕ → List ℕ) (nIters : ℕ)
    (grid : List SiteIn) (baselineYear : ℤ) (loads : List LoadRow) (y : ℤ)
    (hdup : 2 ≤ (loads.filter (fun r => r.year == y)).length) :
    ∃ e, downscale_total sampler nIters grid baselineYear loads =
      Except.error e := by
  have hperm : ((sortLoads loads).filter (fun r => r.year == y)).length =
      (loads.filter (fun r => r.year == y)).length :=
    ((sortLoads_perm loads).filter _).length_eq
  have hpos : 0 < ((sortLoads loads).filter (fun r => r.year == y)).length := by omega
  have hymem : y ∈ distinctYears (sortLoads loads) := by
    obtain ⟨r, hr⟩ := List.exists_mem_of_length_pos hpos
    have hrl := (List.mem_filter.mp hr).1
    have hry : r.year = y := by
      have := (List.mem_filter.mp hr).2
      simpa using this
    have : y ∈ (sortLoads loads).map LoadRow.year :=
      hry ▸ List.mem_map_of_mem LoadRow.year hrl
    exact (sortInt_perm _).mem_iff.mpr (List.mem_dedup.mpr this)
  have hgmem : (y, ((sortLoads loads).filter (fun r => r.year == y)).map LoadRow.value)
      ∈ groupYears (sortLoads loads) :=
    List.mem_map_of_mem _ hymem
  have hlen : 1 <
      (((sortLoads loads).filter (fun r => r.year == y)).map LoadRow.value).length := by
    rw [List.length_map]; omega
  obtain ⟨e, he⟩ := processYearsLoop_error_of_dup sampler nIters _ (initRows grid) 0
    ⟨y, _, hgmem, hlen⟩
  refine ⟨e, ?_⟩
  simp only [downscale_total]
  rw [he]

/-- C6 witness: the amended duplicate-year theorem applied to a table with
year 2030 recorded twice. -/
theorem c6_witness :
    ∃ e, downscale_total (fun _ => [0]) 1 [⟨0, 1, 0, 10⟩] 2020
        [⟨2030, 1⟩, ⟨2030, 2⟩] = Except.error e :=
  c6_duplicate_year_aborts (fun _ => [0]) 1 [⟨0, 1, 0, 10⟩] 2020
    [⟨2030, 1⟩, ⟨2030, 2⟩] 2030 (by decide)

/-! ### C7: unsorted years are sorted in place, not rejected -/

/-- C7 counterexample: a load table whose rows are in strictly descending
year order is accepted: the run completes without any error and produces
the full output, with the years processed in ascending order, refuting the
claim that a non-ascending ordering aborts the run. -/
theorem c7_counterexample :
    downscale_total (fun _ => [0]) 1 [⟨0, 1, 0, 100⟩] 2020
        [⟨2031, 2⟩, ⟨2030, 5⟩] =
      Except.ok [(2020, [⟨0, some 0, some 0, some 100⟩]),
                 (2030, [⟨0, some 5, some 0, some 95⟩]),
                 (2031, [⟨0, some 7, some 0, some 93⟩])] := by
  with_unfolding_all rfl

/-- C7 amended: downscale_total never rejects an out-of-order load table;
it sorts the table ascending by year before the year loop, so any run
equals the run on the pre-sorted table. -/
theorem c7_sorts_and_proceeds (sampler : ℕ → List ℕ) (nIters : ℕ)
    (grid : List SiteIn) (baselineYear : ℤ) (loads : List LoadRow) :
    downscale_total sampler nIters grid baselineYear loads =
      downscale_total sampler nIters grid baselineYear (sortLoads loads) := by
  unfold downscale_total
  rw [sortLoads_idem]

/-! ### C1: infeasible demand is not detected -/

/-- C1: with a single eligible site of priority 1 and capacity 10 and a
target of 10.0001, no insufficient-capacity error is raised: the argmax of
the all-False exceedance array degenerates to index 0, the whole overflow
target is assigned to that site, the isclose check passes, and the run
completes with the site's developable capacity driven negative. -/
theorem c1_infeasibility_unguarded :
    downscale_total (fun _ => [0]) 1 [⟨0, 1, 0, 10⟩] 2020
        [⟨2021, 100001 / 10000⟩] =
      Except.ok [(2020, [⟨0, some 0, some 0, some 10⟩]),
                 (2021, [⟨0, some (100001 / 10000), some 0, some (-(1 / 10000))⟩])] := by
  with_unfolding_all rfl

/-! ### C3: a zero target produces NaN state, not zero allocations -/

/-- C3: with a single site and a year whose target is 0, every trial
allocates 0, the summed medians are 0, and the proportion 0/0 is NaN; the
calibrated NaN is written into the site, so total load and developable
capacity become NaN for the year instead of staying unchanged, while the
run continues without error because the skipna sum of the all-NaN
calibrated column is 0. -/
theorem c3_target_zero_nan :
    downscale_total (fun _ => [0]) 1 [⟨0, 1, 0, 10⟩] 2020 [⟨2021, 0⟩] =
      Except.ok [(2020, [⟨0, some 0, some 0, some 10⟩]),
                 (2021, [⟨0, none, some 0, none⟩])] := by
  with_unfolding_all rfl

/-! ### C4: the snapshot new-load column is reset before it is recorded -/

/-- C4: the output is keyed by site and year with a cumulative total-load
column, but the new-load column is reset to zero before the snapshot is
recorded (source line 164 precedes the append at line 167), so the
recorded new load is 0 even though the total load rose from 0 to 5 across
the year. -/
theorem c4_new_load_reset_before_snapshot :
    downscale_total (fun _ => [0]) 1 [⟨0, 1, 0, 10⟩] 2020 [⟨2021, 5⟩] =
      Except.ok [(2020, [⟨0, some 0, some 0, some 10⟩]),
                 (2021, [⟨0, some 5, some 0, some 5⟩])] := by
  with_unfolding_all rfl

/-! ### C2: the median is taken over deployed trials only -/

theorem insertNat_perm (x : ℕ) (l : List ℕ) : (insertNat x l).Perm (x :: l) := by
  induction l with
  | nil => exact List.Perm.refl _
  | cons y ys ih =>
    by_cases h : x ≤ y
    · simp [insertNat, h]
    · simp only [insertNat, if_neg h]
      exact (ih.cons y).trans (List.Perm.swap x y ys)

theorem sortNat_perm (l : List ℕ) : (sortNat l).Perm l := by
  induction l with
  | nil => exact List.Perm.refl _
  | cons x xs ih => exact (insertNat_perm x (sortNat xs)).trans (ih.cons x)

theorem find?_pair_map (l : List ℕ) (f : ℕ → PVal) (i : ℕ) :
    ((l.map (fun j => (j, f j))).find? (fun p => p.1 == i)) =
      (l.find? (fun j => j == i)).map (fun j => (j, f j)) := by
  induction l with
  | nil => rfl
  | cons x xs ih =>
    simp only [List.map_cons, List.find?]
    cases h : (x == i) with
    | true => simp [h]
    | false => simp [h, ih]

theorem find?_key_self (l : List ℕ) (i : ℕ) (h : i ∈ l) :
    l.find? (fun j => j == i) = some i := by
  induction l with
  | nil => simp at h
  | cons x xs ih =>
    by_cases hx : x = i
    · rw [List.find?_cons_of_pos _ (by simpa using hx)]
      rw [hx]
    · rw [List.find?_cons_of_neg _ (by simpa using hx)]
      exact ih (by rcases List.mem_cons.mp h with h | h; exact absurd h.symm hx; exact h)

theorem medianOf_deployed (sims : List (ℕ × PVal)) (i : ℕ)
    (h : i ∈ sims.map Prod.fst) :
    medianOf sims i = pMedian (valuesFor sims i) := by
  have hmem : i ∈ sortNat (sims.map Prod.fst).dedup :=
    (sortNat_perm _).mem_iff.mpr (List.mem_dedup.mpr h)
  unfold medianOf yearMedians
  rw [find?_pair_map, find?_key_self _ _ hmem]
  rfl

theorem valuesFor_flatten (trials : List (List (ℕ × PVal))) (i : ℕ) :
    valuesFor trials.flatten i = (trials.map (fun dep => valuesFor dep i)).flatten := by
  simp [valuesFor, List.filter_flatten, List.map_flatten, Function.comp_def]

/-- C2 counterexample: two sites of capacity 4 and a year target of 3,
with two trials ordered [0, 1] and [1, 0].  Each trial deploys only its
first site, with allocation 3.  The engine aggregates site 0 to the median
3 of the single trial in which it was deployed, while the claim's median
over all trials, counting zero for the trial that did not deploy it, is
3/2, so the claim is false of the code. -/
theorem c2_counterexample :
    runTrial (initRows [⟨0, 1, 0, 4⟩, ⟨1, 1, 0, 4⟩]) [0, 1] 3 =
      Except.ok [(0, some 3)] ∧
    runTrial (initRows [⟨0, 1, 0, 4⟩, ⟨1, 1, 0, 4⟩]) [1, 0] 3 =
      Except.ok [(1, some 3)] ∧
    runTrials (fun s => if s = 0 then [0, 1] else [1, 0])
        (initRows [⟨0, 1, 0, 4⟩, ⟨1, 1, 0, 4⟩]) 3 2 0 =
      Except.ok ([(0, some 3), (1, some 3)], 2) ∧
    medianOf [(0, some 3), (1, some 3)] 0 = some 3 ∧
    claimMedianAllTrials [[(0, some 3)], [(1, some 3)]] 0 = some (3 / 2) ∧
    some (3 : ℚ) ≠ some (3 / 2 : ℚ) :=
  ⟨by with_unfolding_all rfl, by with_unfolding_all rfl, by with_unfolding_all rfl,
   by with_unfolding_all rfl, by with_unfolding_all rfl, by norm_num⟩

/-- C2 amended: the aggregated value for a site deployed in at least one
trial is the median of its allocations over exactly the trials that
deployed it; trials in which the site received no allocation contribute
nothing to the median, because only deployed rows enter the concatenated
simulation table. -/
theorem c2_median_over_deployed_trials (trials : List (List (ℕ × PVal))) (i : ℕ)
    (h : i ∈ trials.flatten.map Prod.fst) :
    medianOf trials.flatten i =
      pMedian ((trials.map (fun dep => valuesFor dep i)).flatten) := by
  rw [medianOf_deployed _ _ h, valuesFor_flatten]

/-- C2 witness: the deployed-only median theorem applied to the two
concrete trials of the counterexample. -/
theorem c2_witness :
    (0 ∈ ([[(0, some 3)], [(1, some 3)]] : List (List (ℕ × PVal))).flatten.map Prod.fst) ∧
    medianOf ([[(0, some 3)], [(1, some 3)]] : List (List (ℕ × PVal))).flatten 0 =
      pMedian ((([[(0, some 3)], [(1, some 3)]] : List (List (ℕ × PVal))).map
        (fun dep => valuesFor dep 0)).flatten) :=
  ⟨by simp, c2_median_over_deployed_trials [[(0, some 3)], [(1, some 3)]] 0 (by simp)⟩

/-! ### C10: shape of a feasible trial's allocation -/

theorem pSum_map_some (l : List ℚ) : pSum (l.map some) = l.sum := by
  induction l with
  | nil => rfl
  | cons x xs ih =>
    simp only [List.map_cons, pSum, List.filterMap_cons, id] at ih ⊢
    rw [List.sum_cons, List.sum_cons, ih]

theorem getD_map_of_lt {α β : Type} (f : α → β) (l : List α) (dA : α) (dB : β)
    (m : ℕ) (hm : m < l.length) : (l.map f).getD m dB = f (l.getD m dA) := by
  simp [List.getD_eq_getElem?_getD, List.getElem?_map, List.getElem?_eq_getElem hm]

theorem pCumsumAux_some_getD (l : List ℚ) :
    ∀ (acc : ℚ) (m : ℕ), m < l.length →
      (pCumsumAux acc (l.map some)).getD m none = some (acc + (l.take (m + 1)).sum) := by
  induction l with
  | nil => intro acc m hm; simp at hm
  | cons x xs ih =>
    intro acc m hm
    cases m with
    | zero => simp [pCumsumAux]
    | succ n =>
      simp only [List.map_cons, pCumsumAux, List.getD_cons_succ]
      rw [ih (acc + x) n (by simpa using hm)]
      rw [List.take_succ_cons, List.sum_cons]
      congr 1
      ring

theorem pCumsum_some_getD (l : List ℚ) (m : ℕ) (hm : m < l.length) :
    (pCumsum (l.map some)).getD m none = some ((l.take (m + 1)).sum) := by
  have h := pCumsumAux_some_getD l 0 m hm
  simpa [pCumsum] using h

theorem argmaxBool_true_of_exists (l : List Bool) (h : true ∈ l) :
    l.getD (argmaxBool l) false = true := by
  unfold argmaxBool
  match hf : l.findIdx? id with
  | none =>
    rw [List.findIdx?_eq_none_iff] at hf
    exact absurd (hf true h) (by simp)
  | some i =>
    rcases List.findIdx?_eq_some_iff_getElem.mp hf with ⟨hi, hpi, -⟩
    simp only [Option.getD]
    simp only [List.getD_eq_getElem?_getD, List.getElem?_eq_getElem hi]
    simpa using hpi

/-- C10: in a feasible trial (some prefix of the sampled ordering has
cumulative capacity strictly exceeding the nonnegative target) over
nonnegative capacities, the deployed prefix runs to the first crossing
position: every earlier site receives exactly its remaining capacity, the
crossing site receives the nonnegative remainder, which is strictly less
than its own remaining capacity, and every later site of the ordering
receives zero. -/
theorem c10_trial_allocation_bounds (rows : List SiteRow) (order : List ℕ)
    (target : ℚ) (qcaps : List ℚ)
    (hcaps : order.map (lookupCap rows) = qcaps.map some)
    (hnn : ∀ c ∈ qcaps, 0 ≤ c)
    (ht : 0 ≤ target)
    (hfeas : ∃ j, j < qcaps.length ∧ target < (qcaps.take (j + 1)).sum)
    (hnd : order.Nodup) :
    ∃ dep k, runTrial rows order target = Except.ok dep ∧
      k < qcaps.length ∧ dep.length = k + 1 ∧
      (∀ m, m < k → dep.getD m (0, none) = (order.getD m 0, some (qcaps.getD m 0)) ∧
        0 ≤ qcaps.getD m 0) ∧
      dep.getD k (0, none) = (order.getD k 0, some (target - (qcaps.take k).sum)) ∧
      0 ≤ target - (qcaps.take k).sum ∧
      target - (qcaps.take k).sum < qcaps.getD k 0 ∧
      (∀ i ∈ order.drop (k + 1), trialAllocOf dep i = some 0) := by
  have hlen : order.length = qcaps.length := by
    have h := congrArg List.length hcaps
    simpa using h
  obtain ⟨j, hj, hjlt⟩ := hfeas
  cases order with
  | nil => rw [List.length_nil] at hlen; omega
  | cons o os =>
    simp only [runTrial]
    rw [hcaps]
    set B := (pCumsum (qcaps.map some)).map (fun c => pGtQ c target) with hBdef
    set k := argmaxBool B with hkdef
    have hBlen : B.length = qcaps.length := by
      simp [hBdef, pCumsum_length]
    have hBval : ∀ m, m < qcaps.length →
        B.getD m false = decide (target < (qcaps.take (m + 1)).sum) := by
      intro m hm
      have hmc : m < (pCumsum (qcaps.map some)).length := by
        simpa [pCumsum_length] using hm
      rw [hBdef, getD_map_of_lt _ _ none false m hmc, pCumsum_some_getD qcaps m hm]
      rfl
    have hkq : k < qcaps.length := by
      have hBne : B ≠ [] := List.ne_nil_of_length_pos (by omega)
      have h := argmaxBool_lt B hBne
      omega
    have hjB : j < B.length := by omega
    have hjtrue : B.getD j false = true := by
      rw [hBval j hj]
      exact decide_eq_true hjlt
    have hmemB : true ∈ B := by
      have h1 : B[j]? = some (B.getD j false) := by
        simp [List.getD_eq_getElem?_getD, List.getElem?_eq_getElem hjB]
      exact List.getElem?_mem (hjtrue ▸ h1)
    have hktrue : target < (qcaps.take (k + 1)).sum := by
      have h := argmaxBool_true_of_exists B hmemB
      rw [← hkdef] at h
      rw [hBval k hkq] at h
      exact of_decide_eq_true h
    have hkfalse : (qcaps.take k).sum ≤ target := by
      match hke : k with
      | 0 => simpa using ht
      | n + 1 =>
        have hn : n < argmaxBool B := by omega
        have h := argmaxBool_false_before B n hn
        rw [hBval n (by omega)] at h
        exact le_of_not_lt (of_decide_eq_false h)
    have htake : (qcaps.map some).take k = (qcaps.take k).map some :=
      (List.map_take some qcaps k).symm
    have hfilled : pSum ((qcaps.map some).take k) = (qcaps.take k).sum := by
      rw [htake, pSum_map_some]
    have hallsum :
        pSum ((qcaps.map some).take k ++
          [some (target - pSum ((qcaps.map some).take k))]) = target := by
      rw [pSum_append, pSum_singleton]
      ring
    have hcond : iscloseQ
        (pSum ((qcaps.map some).take k ++
          [some (target - pSum ((qcaps.map some).take k))])) target = true := by
      rw [hallsum]; exact iscloseQ_self target
    rw [hcond]
    simp only [if_true]
    have hlenos : k + 1 ≤ (o :: os).length := by
      rw [hlen]; omega
    have hlentake : ((o :: os).take (k + 1)).length = k + 1 := by
      rw [List.length_take]; omega
    have hlenallocs :
        ((qcaps.map some).take k ++
          [some (target - pSum ((qcaps.map some).take k))]).length = k + 1 := by
      simp only [List.length_append, List.length_take, List.length_map,
        List.length_singleton]
      omega
    refine ⟨_, k, rfl, hkq, ?_, ?_, ?_, ?_, ?_, ?_⟩
    · rw [List.length_zip, hlentake, hlenallocs]
      omega
    · intro m hm
      have hmo : m < (o :: os).length := by omega
      have horder : ((o :: os).take (k + 1))[m]? = some ((o :: os).getD m 0) := by
        rw [List.getElem?_take_of_lt (by omega)]
        simp [List.getD_eq_getElem?_getD, List.getElem?_eq_getElem hmo]
      have hmq : m < qcaps.length := by omega
      have hcapnn : 0 ≤ qcaps.getD m 0 := by
        have hgd : qcaps.getD m 0 = qcaps[m] := by
          simp [List.getD_eq_getElem?_getD, List.getElem?_eq_getElem hmq]
        rw [hgd]
        exact hnn _ (List.getElem_mem hmq)
      refine ⟨?_, hcapnn⟩
      have hallocm : ((qcaps.map some).take k ++
          [some (target - pSum ((qcaps.map some).take k))])[m]? =
            some (some (qcaps.getD m 0)) := by
        rw [List.getElem?_append_left (by simp [List.length_take]; omega)]
        rw [List.getElem?_take_of_lt hm]
        simp [List.getElem?_map, List.getElem?_eq_getElem hmq,
          List.getD_eq_getElem?_getD]
      have hzip : (((o :: os).take (k + 1)).zip
          ((qcaps.map some).take k ++
            [some (target - pSum ((qcaps.map some).take k))]))[m]? =
          some ((o :: os).getD m 0, some (qcaps.getD m 0)) := by
        rw [List.getElem?_zip_eq_some]
        exact ⟨horder, hallocm⟩
      rw [List.getD_eq_getElem?_getD, hzip]
      rfl
    · have hko : k < (o :: os).length := by omega
      have horder : ((o :: os).take (k + 1))[k]? = some ((o :: os).getD k 0) := by
        rw [List.getElem?_take_of_lt (by omega)]
        simp [List.getD_eq_getElem?_getD, List.getElem?_eq_getElem hko]
      have hallock : ((qcaps.map some).take k ++
          [some (target - pSum ((qcaps.map some).take k))])[k]? =
            some (some (target - (qcaps.take k).sum)) := by
        have hklen : ((qcaps.map some).take k).length = k := by
          simp [List.length_take]; omega
        rw [List.getElem?_append_right (by omega)]
        rw [hklen, Nat.sub_self, hfilled]
        rfl
      have hzip : (((o :: os).take (k + 1)).zip
          ((qcaps.map some).take k ++
            [some (target - pSum ((qcaps.map some).take k))]))[k]? =
          some ((o :: os).getD k 0, some (target - (qcaps.take k).sum)) := by
        rw [List.getElem?_zip_eq_some]
        exact ⟨horder, hallock⟩
      rw [List.getD_eq_getElem?_getD, hzip]
      rfl
    · linarith
    · have hsucc : (qcaps.take (k + 1)).sum = (qcaps.take k).sum + qcaps[k] :=
        List.sum_take_succ qcaps k hkq
      have hgd : qcaps.getD k 0 = qcaps[k] := by
        simp [List.getD_eq_getElem?_getD, List.getElem?_eq_getElem hkq]
      rw [hgd]
      linarith
    · intro i hi
      have hnodapp : (((o :: os).take (k + 1)) ++ ((o :: os).drop (k + 1))).Nodup := by
        rw [List.take_append_drop]
        exact hnd
      have hdisj := List.disjoint_of_nodup_append hnodapp
      have hfst : (((o :: os).take (k + 1)).zip
          ((qcaps.map some).take k ++
            [some (target - pSum ((qcaps.map some).take k))])).map Prod.fst =
          (o :: os).take (k + 1) := by
        apply List.map_fst_zip
        rw [hlentake, hlenallocs]
      have hnone : (((o :: os).take (k + 1)).zip
          ((qcaps.map some).take k ++
            [some (target - pSum ((qcaps.map some).take k))])).find?
          (fun p => p.1 == i) = none := by
        rw [List.find?_eq_none]
        intro p hp
        have hp1 : p.1 ∈ (o :: os).take (k + 1) := by
          rw [← hfst]
          exact List.mem_map_of_mem Prod.fst hp
        have hne : p.1 ≠ i := fun he => hdisj hp1 (he ▸ hi)
        simpa using hne
      unfold trialAllocOf
      rw [hnone]

/-- C10 witness: the trial-shape theorem applied to three sites of
capacity 4, ordering [0, 1, 2] and target 5: the crossing position is 1,
site 0 is filled with 4, site 1 receives the remainder 1 < 4, and site 2
receives zero. -/
theorem c10_witness :
    ∃ dep k,
      runTrial (initRows [⟨0, 1, 0, 4⟩, ⟨1, 1, 0, 4⟩, ⟨2, 1, 0, 4⟩]) [0, 1, 2] 5 =
        Except.ok dep ∧
      k < ([4, 4, 4] : List ℚ).length ∧ dep.length = k + 1 ∧
      (∀ m, m < k → dep.getD m (0, none) =
          ([0, 1, 2].getD m 0, some (([4, 4, 4] : List ℚ).getD m 0)) ∧
        0 ≤ ([4, 4, 4] : List ℚ).getD m 0) ∧
      dep.getD k (0, none) =
        ([0, 1, 2].getD k 0, some (5 - (([4, 4, 4] : List ℚ).take k).sum)) ∧
      0 ≤ 5 - (([4, 4, 4] : List ℚ).take k).sum ∧
      5 - (([4, 4, 4] : List ℚ).take k).sum < ([4, 4, 4] : List ℚ).getD k 0 ∧
      (∀ i ∈ [0, 1, 2].drop (k + 1), trialAllocOf dep i = some 0) :=
  c10_trial_allocation_bounds (initRows [⟨0, 1, 0, 4⟩, ⟨1, 1, 0, 4⟩, ⟨2, 1, 0, 4⟩])
    [0, 1, 2] 5 [4, 4, 4]
    (by with_unfolding_all rfl)
    (by intro c hc; fin_cases hc <;> norm_num)
    (by norm_num)
    ⟨1, by norm_num, by norm_num [List.take_succ_cons, List.take_zero, List.sum_cons]⟩
    (by decide)

/-! ### C8 stage A: nonnegativity of sums, medians and trial prefixes -/

theorem pSum_cons_none (l : List PVal) : pSum (none :: l) = pSum l := by
  simp [pSum]

theorem pSum_cons_some (q : ℚ) (l : List PVal) : pSum (some q :: l) = q + pSum l := by
  simp [pSum]

theorem pSum_nonneg (l : List PVal) (h : ∀ v ∈ l, nonnegCell v) : 0 ≤ pSum l := by
  induction l with
  | nil => simp [pSum]
  | cons v vs ih =>
    have hv := h v (by simp)
    have ihs := ih (fun w hw => h w (by simp [hw]))
    cases v with
    | none => simpa [pSum_cons_none] using ihs
    | some q =>
      rw [pSum_cons_some]
      have hq : 0 ≤ q := hv q rfl
      linarith

theorem insertQ_perm (x : ℚ) (l : List ℚ) : (insertQ x l).Perm (x :: l) := by
  induction l with
  | nil => exact List.Perm.refl _
  | cons y ys ih =>
    by_cases h : x ≤ y
    · simp [insertQ, h]
    · simp only [insertQ, if_neg h]
      exact (ih.cons y).trans (List.Perm.swap x y ys)

theorem sortQ_perm (l : List ℚ) : (sortQ l).Perm l := by
  induction l with
  | nil => exact List.Perm.refl _
  | cons x xs ih => exact (insertQ_perm x (sortQ xs)).trans (ih.cons x)

theorem pMedian_nonneg (l : List PVal) (h : ∀ v ∈ l, nonnegCell v) :
    nonnegCell (pMedian l) := by
  intro m hm
  unfold pMedian at hm
  set v := sortQ (l.filterMap id) with hv
  have hvnn : ∀ q ∈ v, 0 ≤ q := by
    intro q hq
    have hq2 : q ∈ l.filterMap id := (sortQ_perm _).mem_iff.mp (hv ▸ hq)
    obtain ⟨a, ha, hai⟩ := List.mem_filterMap.mp hq2
    exact h a ha q (by simpa using hai)
  have hgd : ∀ n, n < v.length → 0 ≤ v.getD n 0 := by
    intro n hn
    have he : v.getD n 0 = v[n] := by
      simp [List.getD_eq_getElem?_getD, List.getElem?_eq_getElem hn]
    rw [he]
    exact hvnn _ (List.getElem_mem hn)
  by_cases h0 : v.length = 0
  · rw [if_pos h0] at hm
    cases hm
  · rw [if_neg h0] at hm
    by_cases hodd : v.length % 2 = 1
    · rw [if_pos hodd] at hm
      injection hm with hm
      rw [← hm]
      exact hgd _ (by omega)
    · rw [if_neg hodd] at hm
      injection hm with hm
      rw [← hm]
      have h1 : 0 ≤ v.getD (v.length / 2 - 1) 0 := hgd _ (by omega)
      have h2 : 0 ≤ v.getD (v.length / 2) 0 := hgd _ (by omega)
      linarith

theorem argmaxBool_cons_true (bs : List Bool) : argmaxBool (true :: bs) = 0 := by
  simp [argmaxBool, List.findIdx?_cons]

theorem argmaxBool_cons_false (bs : List Bool) :
    argmaxBool (false :: bs) = ((bs.findIdx? id).map (· + 1)).getD 0 := by
  unfold argmaxBool
  rw [List.findIdx?_cons]
  simp [List.findIdx?_start_succ]

theorem pCumsumAux_prefix_le (caps : List PVal) :
    ∀ acc target : ℚ, acc ≤ target →
      acc + pSum (caps.take
        (argmaxBool ((pCumsumAux acc caps).map (fun c => pGtQ c target)))) ≤ target := by
  induction caps with
  | nil =>
    intro acc target hacc
    simpa [pCumsumAux, argmaxBool, pSum] using hacc
  | cons v vs ih =>
    intro acc target hacc
    cases v with
    | none =>
      simp only [pCumsumAux, List.map_cons]
      rw [show pGtQ none target = false from rfl, argmaxBool_cons_false]
      cases hf : ((pCumsumAux acc vs).map (fun c => pGtQ c target)).findIdx? id with
      | none => simpa [pSum] using hacc
      | some k2 =>
        simp only [Option.map_some', Option.getD_some]
        rw [List.take_succ_cons, pSum_cons_none]
        have hih := ih acc target hacc
        unfold argmaxBool at hih
        rw [hf] at hih
        simpa using hih
    | some q =>
      simp only [pCumsumAux, List.map_cons]
      rw [show pGtQ (some (acc + q)) target = decide (target < acc + q) from rfl]
      cases hgt : decide (target < acc + q) with
      | true =>
        rw [argmaxBool_cons_true]
        simpa [pSum] using hacc
      | false =>
        rw [argmaxBool_cons_false]
        have hle : acc + q ≤ target := le_of_not_lt (of_decide_eq_false hgt)
        cases hf : ((pCumsumAux (acc + q) vs).map (fun c => pGtQ c target)).findIdx? id with
        | none => simpa [pSum] using hacc
        | some k2 =>
          simp only [Option.map_some', Option.getD_some]
          rw [List.take_succ_cons, pSum_cons_some]
          have hih := ih (acc + q) target hle
          unfold argmaxBool at hih
          rw [hf] at hih
          simp only [Option.getD_some] at hih
          linarith

theorem trial_prefix_le (caps : List PVal) (target : ℚ) (ht : 0 ≤ target) :
    pSum (caps.take
      (argmaxBool ((pCumsum caps).map (fun c => pGtQ c target)))) ≤ target := by
  have h := pCumsumAux_prefix_le caps 0 target ht
  simpa [pCumsum] using h

/-! ### C8 stage B: per-year capacity monotonicity -/

theorem runTrial_values (rows : List SiteRow) (order : List ℕ) (target : ℚ)
    (dep : List (ℕ × PVal))
    (hok : runTrial rows order target = Except.ok dep)
    (hcap : ∀ i c, lookupCap rows i = some c → 0 ≤ c)
    (ht : 0 ≤ target) :
    ∀ p ∈ dep, nonnegCell p.2 := by
  match order with
  | [] => exact absurd hok (by simp [runTrial])
  | o :: os =>
    simp only [runTrial] at hok
    split at hok
    case isFalse => cases hok
    case isTrue hcond =>
      injection hok with hok
      intro p hp
      rw [← hok] at hp
      obtain ⟨p₁, p₂⟩ := p
      have hmem := (List.of_mem_zip hp).2
      rcases List.mem_append.mp hmem with hmem | hmem
      · have hcaps : p₂ ∈ (o :: os).map (lookupCap rows) :=
          List.take_subset _ _ hmem
        obtain ⟨j, -, hj⟩ := List.mem_map.mp hcaps
        intro q hq
        have hq2 : p₂ = some q := hq
        exact hcap j q (hj.trans hq2)
      · have hp₂ : p₂ = some (target -
            pSum (((o :: os).map (lookupCap rows)).take
              (argmaxBool ((pCumsum ((o :: os).map (lookupCap rows))).map
                (fun c => pGtQ c target))))) := by
          simpa using hmem
        intro q hq
        have hq2 : p₂ = some q := hq
        rw [hp₂] at hq2
        injection hq2 with hq
        have hle := trial_prefix_le ((o :: os).map (lookupCap rows)) target ht
        rw [← hq]
        linarith

theorem runTrials_values (sampler : ℕ → List ℕ) (rows : List SiteRow) (target : ℚ) :
    ∀ (n seed : ℕ) (sims : List (ℕ × PVal)) (seed2 : ℕ),
      runTrials sampler rows target n seed = Except.ok (sims, seed2) →
      (∀ i c, lookupCap rows i = some c → 0 ≤ c) → 0 ≤ target →
      ∀ p ∈ sims, nonnegCell p.2 := by
  intro n
  induction n with
  | zero =>
    intro seed sims seed2 hok _ _
    simp only [runTrials] at hok
    injection hok with hok
    have : sims = [] := (congrArg Prod.fst hok).symm
    subst this
    intro p hp
    simp at hp
  | succ m ih =>
    intro seed sims seed2 hok hcap ht
    simp only [runTrials] at hok
    cases hq : runTrial rows (sampler seed) target with
    | error e => rw [hq] at hok; cases hok
    | ok dep =>
      rw [hq] at hok
      cases hr : runTrials sampler rows target m (seed + 1) with
      | error e => rw [hr] at hok; cases hok
      | ok pr =>
        obtain ⟨rest, seed3⟩ := pr
        rw [hr] at hok
        injection hok with hok
        have hsims : sims = dep ++ rest := (congrArg Prod.fst hok).symm
        subst hsims
        intro p hp
        rcases List.mem_append.mp hp with hp | hp
        · exact runTrial_values rows (sampler seed) target dep hq hcap ht p hp
        · exact ih (seed + 1) rest seed3 hr hcap ht p hp

theorem lookupCap_applyYear (rows : List SiteRow) (calib : List (ℕ × PVal)) (i : ℕ) :
    lookupCap (applyYear rows calib) i = pSub (lookupCap rows i) (lookupCalib calib i) := by
  induction rows with
  | nil => simp [applyYear, lookupCap, pSub]
  | cons r rs ih =>
    simp only [applyYear, List.map_cons, lookupCap, List.find?]
    cases hb : (r.sid == i) with
    | true =>
      have hsid : r.sid = i := by simpa using hb
      simp [hb, hsid]
    | false =>
      simp only [hb]
      simpa [applyYear, lookupCap] using ih

theorem aggregateYear_ok_eq (sims : List (ℕ × PVal)) (target : ℚ)
    (calib : List (ℕ × PVal))
    (hok : aggregateYear sims target = Except.ok calib) :
    calib = (yearMedians sims).map (fun p =>
      (p.1, pMul (pDiv p.2 (some (pSum ((yearMedians sims).map Prod.snd))))
        (some target))) := by
  simp only [aggregateYear] at hok
  split at hok
  · injection hok with hok
    exact hok.symm
  · cases hok

theorem find?_fst_map (l : List (ℕ × PVal)) (g : ℕ × PVal → ℕ × PVal)
    (hg : ∀ p, (g p).1 = p.1) (i : ℕ) :
    (l.map g).find? (fun p => p.1 == i) = (l.find? (fun p => p.1 == i)).map g := by
  induction l with
  | nil => rfl
  | cons p ps ih =>
    simp only [List.map_cons, List.find?, hg p]
    cases hb : (p.1 == i) with
    | true => simp [hb]
    | false => simp [hb, ih]

theorem processYear_cap_mono (sampler : ℕ → List ℕ) (nIters : ℕ)
    (rows : List SiteRow) (target : ℚ) (seed : ℕ) (rows' : List SiteRow) (seed' : ℕ)
    (hok : processYear sampler nIters rows target seed = Except.ok (rows', seed'))
    (ht : 0 ≤ target)
    (hcap : ∀ i c, lookupCap rows i = some c → 0 ≤ c) :
    ∀ i c₁ c₂, lookupCap rows i = some c₁ → lookupCap rows' i = some c₂ → c₂ ≤ c₁ := by
  intro i c₁ c₂ h₁ h₂
  simp only [processYear] at hok
  cases hts : runTrials sampler rows target nIters seed with
  | error e => rw [hts] at hok; cases hok
  | ok pr =>
    obtain ⟨sims, seed2⟩ := pr
    rw [hts] at hok
    have hok2 : (match aggregateYear sims target with
        | Except.error e => Except.error e
        | Except.ok calib => Except.ok (applyYear rows calib, seed2)) =
        Except.ok (rows', seed') := hok
    cases hag : aggregateYear sims target with
    | error e => rw [hag] at hok2; cases hok2
    | ok calib =>
      rw [hag] at hok2
      injection hok2 with hok2
      have hrows : rows' = applyYear rows calib := (congrArg Prod.fst hok2).symm
      rw [hrows, lookupCap_applyYear, h₁] at h₂
      have hvals : ∀ p ∈ sims, nonnegCell p.2 :=
        runTrials_values sampler rows target nIters seed sims seed2 hts hcap ht
      have hmedsnn : ∀ p ∈ yearMedians sims, nonnegCell p.2 := by
        intro p hp
        obtain ⟨j, -, hj⟩ := List.mem_map.mp hp
        rw [← hj]
        apply pMedian_nonneg
        intro v hv
        obtain ⟨pr2, hpr2, hpr2v⟩ := List.mem_map.mp hv
        have hpr2s : pr2 ∈ sims := List.mem_of_mem_filter hpr2
        rw [← hpr2v]
        exact hvals pr2 hpr2s
      have hsumnn : 0 ≤ pSum ((yearMedians sims).map Prod.snd) := by
        apply pSum_nonneg
        intro v hv
        obtain ⟨p, hp, hpv⟩ := List.mem_map.mp hv
        rw [← hpv]
        exact hmedsnn p hp
      have hcalib := aggregateYear_ok_eq sims target calib hag
      cases hnl : lookupCalib calib i with
      | none =>
        rw [hnl] at h₂
        simp [pSub] at h₂
      | some nl =>
        rw [hnl] at h₂
        simp only [pSub] at h₂
        injection h₂ with h₂
        have hnlnn : 0 ≤ nl := by
          unfold lookupCalib at hnl
          rw [hcalib, find?_fst_map (yearMedians sims)
            (fun p => (p.1, pMul (pDiv p.2
              (some (pSum ((yearMedians sims).map Prod.snd)))) (some target)))
            (fun p => rfl) i] at hnl
          cases hfd : (yearMedians sims).find? (fun p => p.1 == i) with
          | none =>
            rw [hfd] at hnl
            simp only [Option.map_none'] at hnl
            injection hnl with hnl
            exact le_of_eq hnl
          | some p =>
            rw [hfd] at hnl
            simp only [Option.map_some'] at hnl
            have hpmem : p ∈ yearMedians sims := List.mem_of_find?_eq_some hfd
            have hpnn : nonnegCell p.2 := hmedsnn p hpmem
            cases hpm : p.2 with
            | none => rw [hpm] at hnl; simp [pDiv, pMul] at hnl
            | some medq =>
              rw [hpm] at hnl
              have hmq : 0 ≤ medq := hpnn medq hpm
              by_cases hz : pSum ((yearMedians sims).map Prod.snd) = 0
              · rw [hz] at hnl
                simp [pDiv, pMul] at hnl
              · simp only [pDiv, if_neg hz, pMul] at hnl
                injection hnl with hnl
                rw [← hnl]
                have hspos : 0 < pSum ((yearMedians sims).map Prod.snd) :=
                  lt_of_le_of_ne hsumnn (Ne.symm hz)
                have hdiv : 0 ≤ medq / pSum ((yearMedians sims).map Prod.snd) :=
                  div_nonneg hmq (le_of_lt hspos)
                exact mul_nonneg hdiv ht
        linarith

/-! ### C8 stage C: capacities across a whole run -/

theorem lookupCap_initRows (grid : List SiteIn) (s : SiteIn) (hs : s ∈ grid)
    (hnd : (grid.map SiteIn.sid).Nodup) :
    lookupCap (initRows grid) s.sid = some s.capacity := by
  induction grid with
  | nil => simp at hs
  | cons g gs ih =>
    rw [List.map_cons] at hnd
    have hnd2 := List.nodup_cons.mp hnd
    rcases List.mem_cons.mp hs with rfl | hs2
    · simp [initRows, lookupCap, List.find?]
    · have hne : g.sid ≠ s.sid := by
        have hmem : s.sid ∈ gs.map SiteIn.sid := List.mem_map_of_mem _ hs2
        exact fun he => hnd2.1 (he ▸ hmem)
      have hb : (g.sid == s.sid) = false := by simpa using hne
      simp only [initRows, List.map_cons, lookupCap, List.find?, hb]
      have hrec := ih hs2 hnd2.2
      simpa [initRows, lookupCap] using hrec

theorem processYearsLoop_cap_chain (sampler : ℕ → List ℕ) (nIters : ℕ) :
    ∀ (groups : List (ℤ × List ℚ)) (rows : List SiteRow) (seed : ℕ)
      (snapsRest : List (ℤ × List SiteRow)) (y₀ : ℤ),
      processYearsLoop sampler nIters groups rows seed = Except.ok snapsRest →
      (∀ g ∈ groups, ∀ v ∈ g.2, 0 ≤ v) →
      (∀ i c, lookupCap rows i = some c → 0 ≤ c) →
      (∀ snap ∈ snapsRest, ∀ i c, lookupCap snap.2 i = some c → 0 ≤ c) →
      List.Chain' (fun a b => ∀ i c₁ c₂,
        lookupCap a.2 i = some c₁ → lookupCap b.2 i = some c₂ → c₂ ≤ c₁)
        ((y₀, rows) :: snapsRest) := by
  intro groups
  induction groups with
  | nil =>
    intro rows seed snapsRest y₀ hok _ _ _
    simp only [processYearsLoop] at hok
    injection hok with hok
    rw [← hok]
    simp
  | cons g gs ih =>
    intro rows seed snapsRest y₀ hok htg hcap hsnap
    obtain ⟨y, vals⟩ := g
    simp only [processYearsLoop] at hok
    split at hok
    case isTrue => cases hok
    case isFalse hd =>
      cases vals with
      | nil => simp at hok
      | cons v vs =>
        have hok1 : (match processYear sampler nIters rows v seed with
            | Except.error e => Except.error e
            | Except.ok (rows', seed') =>
              match processYearsLoop sampler nIters gs rows' seed' with
              | Except.error e => Except.error e
              | Except.ok rest => Except.ok ((y, rows') :: rest)) =
            Except.ok snapsRest := hok
        cases hp : processYear sampler nIters rows v seed with
        | error e => rw [hp] at hok1; cases hok1
        | ok pr =>
          obtain ⟨rows', seed'⟩ := pr
          rw [hp] at hok1
          have hok2 : (match processYearsLoop sampler nIters gs rows' seed' with
              | Except.error e => Except.error e
              | Except.ok rest => Except.ok ((y, rows') :: rest)) =
              Except.ok snapsRest := hok1
          cases hl : processYearsLoop sampler nIters gs rows' seed' with
          | error e => rw [hl] at hok2; cases hok2
          | ok rest =>
            rw [hl] at hok2
            injection hok2 with hok2
            subst hok2
            have hv0 : 0 ≤ v := htg (y, v :: vs) (by simp) v (by simp)
            have hcap2 : ∀ i c, lookupCap rows' i = some c → 0 ≤ c := by
              intro i c hc
              exact hsnap (y, rows') (by simp) i c hc
            have hmono := processYear_cap_mono sampler nIters rows v seed rows' seed'
              hp hv0 hcap
            have hchain := ih rows' seed' rest y hl
              (fun g2 hg2 => htg g2 (by simp [hg2]))
              hcap2
              (fun s2 hs2 => hsnap s2 (by simp [hs2]))
            exact List.chain'_cons.mpr ⟨hmono, hchain⟩

/-- C8 counterexample: a completed run can destroy a recorded capacity
instead of decreasing it.  With a single site of capacity 10 and one year
of target 0, the run completes, but the capacity recorded after that year
is NaN (the 0/0 proportion), not a number less than or equal to 10, so the
monotone-depletion claim fails on the code as stated. -/
theorem c8_counterexample :
    downscale_total (fun _ => [0]) 1 [⟨0, 1, 0, 10⟩] 2020 [⟨2021, 0⟩] =
      Except.ok [(2020, [⟨0, some 0, some 0, some 10⟩]),
                 (2021, [⟨0, none, some 0, none⟩])] ∧
    lookupCap [⟨0, some 0, some 0, some 10⟩] 0 = some 10 ∧
    lookupCap [⟨0, none, some 0, none⟩] 0 = none :=
  ⟨by with_unfolding_all rfl, by with_unfolding_all rfl, by with_unfolding_all rfl⟩

/-- C8 amended: capacity is seeded once from the input capacity column
(unique site keys), and in a completed run whose recorded capacities are
all nonnegative numbers - that is, a run not hit by the zero-target NaN
defect and within the soft guarantee that calibration does not overshoot a
site's capacity - every site's recorded developable capacity is
nonincreasing between consecutive recorded years, for any load table with
nonnegative targets; it is never increased or reset between years. -/
theorem c8_capacity_monotone (sampler : ℕ → List ℕ) (nIters : ℕ)
    (grid : List SiteIn) (baselineYear : ℤ) (loads : List LoadRow)
    (snaps : List (ℤ × List SiteRow))
    (hrun : downscale_total sampler nIters grid baselineYear loads = Except.ok snaps)
    (ht : ∀ r ∈ loads, 0 ≤ r.value)
    (hnn : ∀ snap ∈ snaps, ∀ i c, lookupCap snap.2 i = some c → 0 ≤ c)
    (hnd : (grid.map SiteIn.sid).Nodup) :
    (∃ rest, snaps = (baselineYear, initRows grid) :: rest) ∧
    (∀ s ∈ grid, lookupCap (initRows grid) s.sid = some s.capacity) ∧
    List.Chain' (fun a b => ∀ i c₁ c₂,
      lookupCap a.2 i = some c₁ → lookupCap b.2 i = some c₂ → c₂ ≤ c₁) snaps := by
  simp only [downscale_total] at hrun
  cases hl : processYearsLoop sampler nIters (groupYears (sortLoads loads))
      (initRows grid) 0 with
  | error e => rw [hl] at hrun; cases hrun
  | ok rest =>
    rw [hl] at hrun
    injection hrun with hrun
    subst hrun
    refine ⟨⟨rest, rfl⟩, ?_, ?_⟩
    · intro s hs
      exact lookupCap_initRows grid s hs hnd
    · have hcap0 : ∀ i c, lookupCap (initRows grid) i = some c → 0 ≤ c := by
        intro i c hc
        exact hnn (baselineYear, initRows grid) (by simp) i c hc
      have htg : ∀ g ∈ groupYears (sortLoads loads), ∀ v ∈ g.2, 0 ≤ v := by
        intro g hg v hv
        obtain ⟨y, -, hgy⟩ := List.mem_map.mp hg
        rw [← hgy] at hv
        simp only at hv
        obtain ⟨r, hr, hrv⟩ := List.mem_map.mp hv
        have hrl : r ∈ sortLoads loads := List.mem_of_mem_filter hr
        have hrl2 : r ∈ loads := (sortLoads_perm loads).mem_iff.mp hrl
        rw [← hrv]
        exact ht r hrl2
      exact processYearsLoop_cap_chain sampler nIters _ (initRows grid) 0 rest
        baselineYear hl htg hcap0 (fun s2 hs2 => hnn s2 (by simp [hs2]))

/-- C8 witness: the monotone-capacity theorem applied to the concrete
two-year run with one site of capacity 20 and targets 4 then 6: recorded
capacities are 20, 16, 10. -/
theorem c8_witness :
    downscale_total (fun _ => [0]) 1 [⟨0, 1, 0, 20⟩] 2020 [⟨2030, 4⟩, ⟨2040, 6⟩] =
      Except.ok [(2020, [⟨0, some 0, some 0, some 20⟩]),
                 (2030, [⟨0, some 4, some 0, some 16⟩]),
                 (2040, [⟨0, some 10, some 0, some 10⟩])] ∧
    ((∃ rest, ([(2020, [⟨0, some 0, some 0, some 20⟩]),
                (2030, [⟨0, some 4, some 0, some 16⟩]),
                (2040, [⟨0, some 10, some 0, some 10⟩])] :
        List (ℤ × List SiteRow)) = (2020, initRows [⟨0, 1, 0, 20⟩]) :: rest) ∧
     (∀ s ∈ [(⟨0, 1, 0, 20⟩ : SiteIn)],
        lookupCap (initRows [⟨0, 1, 0, 20⟩]) s.sid = some s.capacity) ∧
     List.Chain' (fun a b => ∀ i c₁ c₂,
        lookupCap a.2 i = some c₁ → lookupCap b.2 i = some c₂ → c₂ ≤ c₁)
       ([(2020, [⟨0, some 0, some 0, some 20⟩]),
         (2030, [⟨0, some 4, some 0, some 16⟩]),
         (2040, [⟨0, some 10, some 0, some 10⟩])] : List (ℤ × List SiteRow))) :=
  ⟨by with_unfolding_all rfl,
   c8_capacity_monotone (fun _ => [0]) 1 [⟨0, 1, 0, 20⟩] 2020 [⟨2030, 4⟩, ⟨2040, 6⟩]
     ([(2020, [⟨0, some 0, some 0, some 20⟩]),
       (2030, [⟨0, some 4, some 0, some 16⟩]),
       (2040, [⟨0, some 10, some 0, some 10⟩])] : List (ℤ × List SiteRow))
     (by with_unfolding_all rfl)
     (by intro r hr; fin_cases hr <;> norm_num)
     (by
       intro snap hsnap i c hc
       fin_cases hsnap <;>
       · cases hb : ((0 : ℕ) == i) with
         | true =>
           simp only [lookupCap, List.find?, hb] at hc
           injection hc with hc
           rw [← hc]
           norm_num
         | false =>
           simp only [lookupCap, List.find?, hb] at hc
           cases hc)
     (by decide)⟩

end ReVeal
